import Mathlib

/-!
Shallow embedding of the advice-provider subsystem of the Miden VM
(`processor/src/advice/providers.rs`), together with theorems checking the
specification's claims about it.

Conventions of the embedding:
* A Rust `Vec<Felt>` advice stack is a `List Felt` in the same order as the
  vector: index 0 first, the TOP of the stack is the LAST list element
  (`Vec::push` appends, `Vec::pop` removes the last element).
* Fallible operations return `Except ExecutionError α` together with the
  provider state after the call (state is threaded explicitly; a recording
  backend mutates its accessed set even on read-only calls).
* `u32`/`u64` machine integers are modelled as `Nat`; the step counter's
  overflow is declared out of scope by the specification, so `advance_clock`
  is plain successor.
-/

namespace Miden

/-- Modulus of the Miden base field (2^64 - 2^32 + 1). -/
def P : Nat := 2 ^ 64 - 2 ^ 32 + 1

theorem P_pos : 0 < P := by norm_num [P]

instance : NeZero P := ⟨Nat.pos_iff_ne_zero.mp P_pos⟩

/-- A base field element (`Felt` in the source). -/
abbrev Felt := Fin P

/-- The canonical u64 representative of a field element (`Felt::as_int`). -/
def Felt.asInt (x : Felt) : Nat := x.val

/-- Conversion `Felt::from(n as u64)`: the u64 cast truncates to 2^64 and the
field constructor reduces modulo `P`. -/
def feltOfU64 (n : Nat) : Felt := ⟨n % 2 ^ 64 % P, Nat.mod_lt _ P_pos⟩

/-- A `Word` is four field elements (`[Felt; 4]`). -/
abbrev Word := Felt × Felt × Felt × Felt

/-- The 8 little-endian bytes of a u64 value. -/
def le8 (n : Nat) : List Nat :=
  [n % 256, n / 256 % 256, n / 256 ^ 2 % 256, n / 256 ^ 3 % 256,
   n / 256 ^ 4 % 256, n / 256 ^ 5 % 256, n / 256 ^ 6 % 256, n / 256 ^ 7 % 256]

/-- Canonical 32-byte encoding of a `Word` (`IntoBytes for Word`): the
little-endian bytes of each element's canonical u64 value, in order. -/
def intoBytes (w : Word) : List Nat :=
  le8 w.1.asInt ++ le8 w.2.1.asInt ++ le8 w.2.2.1.asInt ++ le8 w.2.2.2.asInt

-- ASSOCIATION-LIST MAPS (model of `BTreeMap` get/insert/collect semantics)
-- ===========================================================================

/-- Lookup in an association list (textbook map `get`). -/
def alGet {K V : Type} [DecidableEq K] : List (K × V) → K → Option V
  | [], _ => none
  | (k, v) :: rest, key => if k = key then some v else alGet rest key

/-- Overwriting insert into an association list (textbook map `insert`:
last write wins, at most one binding per key). -/
def alInsert {K V : Type} [DecidableEq K] (m : List (K × V)) (key : K) (value : V) :
    List (K × V) :=
  (key, value) :: m.filter (fun p => ¬ p.1 = key)

/-- Bulk construction from an iterable of pairs (`collect`), later pairs
overwriting earlier ones. -/
def alOfList {K V : Type} [DecidableEq K] (l : List (K × V)) : List (K × V) :=
  l.foldl (fun m kv => alInsert m kv.1 kv.2) []

-- KEY-VALUE STORE ABSTRACTION (the `KvMap` capability, spec §4.2)
-- ===========================================================================

/-- The generic key-value capability the providers are parameterized over:
`get`, `insert`, and bulk construction. `get` returns a successor state so
that a recording backend can accumulate its accessed set. -/
structure KvOps (σ K V : Type) where
  get : σ → K → Option V × σ
  insert : σ → K → V → σ
  ofList : List (K × V) → σ

/-- Plain backend: an ordered associative structure with textbook semantics. -/
def plainKv (K V : Type) [DecidableEq K] : KvOps (List (K × V)) K V where
  get s k := (alGet s k, s)
  insert s k v := alInsert s k v
  ofList l := alOfList l

/-- Modelled from the spec: `RecordingMap<K, V>` (the recording wrapper of
miden-crypto, not part of the excerpted sources) — a backing map plus the
accumulated accessed subset. -/
structure RecordingMap (K V : Type) where
  backing : List (K × V)
  accessed : List (K × V)

/-- Modelled from the spec: recording backend operations — every successful
`get` also copies the pair into the accessed collection (idempotent), every
`insert` updates the backing map only. -/
def recordingKv (K V : Type) [DecidableEq K] : KvOps (RecordingMap K V) K V where
  get s k :=
    match alGet s.backing k with
    | none => (none, s)
    | some v => (some v, { s with accessed := alInsert s.accessed k v })
  insert s k v := { s with backing := alInsert s.backing k v }
  ofList l := ⟨alOfList l, []⟩

/-- Modelled from the spec: `RecordingMap::into_proof` returns only the
accessed subset. -/
def RecordingMap.intoProof {K V : Type} (s : RecordingMap K V) : List (K × V) :=
  s.accessed

-- ERROR TAXONOMY (spec §7, `ExecutionError` variants used by the provider)
-- ===========================================================================

/-- Modelled from the spec: the errors of the external `MerkleStore`
(miden-crypto), wrapped unchanged by the provider. -/
inductive MerkleError where
  | rootNotInStore (root : Word)
  | nodeNotInStore (node : Word)
  | depthTooBig (depth : Nat)
  deriving DecidableEq, Repr

/-- The provider's closed error taxonomy (`ExecutionError` variants reachable
from `providers.rs`). -/
inductive ExecutionError where
  | adviceStackReadFailed (step : Nat)
  | adviceKeyNotFound (key : Word)
  | invalidTreeNodeIndex (depth value : Felt)
  | invalidTreeDepth (depth : Felt)
  | merkleStoreLookupFailed (e : MerkleError)
  | merkleStoreUpdateFailed (e : MerkleError)
  | merkleStoreMergeFailed (e : MerkleError)
  deriving DecidableEq, Repr

-- NODE INDEX (spec §2/§4.3; `NodeIndex` lives in miden-crypto)
-- ===========================================================================

/-- Modelled from the spec: `NodeIndex { depth, value }`, a (depth, position)
coordinate in a binary Merkle tree. -/
structure NodeIndex where
  depth : Nat
  value : Nat
  deriving DecidableEq, Repr

/-- Modelled from the spec: `NodeIndex::from_elements` — a `(depth, index)`
pair of `Felt` converts to a valid `NodeIndex` exactly when the depth fits a
byte and the index fits within `2^depth`. -/
def NodeIndex.fromElements (depth index : Felt) : Option NodeIndex :=
  if depth.asInt < 256 ∧ index.asInt < 2 ^ depth.asInt then
    some ⟨depth.asInt, index.asInt⟩
  else
    none

/-- The branch directions (most significant bit first) taken when walking from
a root down to position `value` at depth `depth`. -/
def idxBits (depth value : Nat) : List Bool :=
  (List.range depth).map (fun i => Nat.testBit value (depth - 1 - i))

-- MERKLE STORE (spec §4.3; `MerkleStore` lives in miden-crypto)
-- ===========================================================================

/-- A stored inner node: the digests of its two children (`StoreNode`). -/
abbrev StoreNode := Word × Word

section MerkleStore

variable {σS : Type} (sOps : KvOps σS Word StoreNode)

/-- Modelled from the spec: the walk of `MerkleStore::get_node` below the
root — follow the index bits down, failing when an inner node is missing. -/
def storeGetNodeAux (s : σS) (node : Word) : List Bool → Except MerkleError Word × σS
  | [] => (.ok node, s)
  | b :: bs =>
    match sOps.get s node with
    | (none, s') => (.error (.nodeNotInStore node), s')
    | (some (l, r), s') => storeGetNodeAux s' (if b then r else l) bs

/-- Modelled from the spec: `MerkleStore::get_node` — fails when the root is
unknown or the walk runs off the stored tree. -/
def storeGetNode (s : σS) (root : Word) (ni : NodeIndex) : Except MerkleError Word × σS :=
  match sOps.get s root with
  | (none, s') => (.error (.rootNotInStore root), s')
  | (some _, s') => storeGetNodeAux sOps s' root (idxBits ni.depth ni.value)

/-- Modelled from the spec: the walk of `MerkleStore::get_path`, collecting
the sibling digests from the target node up to (excluding) the root. -/
def storeGetPathAux (s : σS) (node : Word) : List Bool → Except MerkleError (List Word) × σS
  | [] => (.ok [], s)
  | b :: bs =>
    match sOps.get s node with
    | (none, s') => (.error (.nodeNotInStore node), s')
    | (some (l, r), s') =>
      match storeGetPathAux s' (if b then r else l) bs with
      | (.error e, s'') => (.error e, s'')
      | (.ok rest, s'') => (.ok (rest ++ [if b then l else r]), s'')

/-- Modelled from the spec: `MerkleStore::get_path`. -/
def storeGetPath (s : σS) (root : Word) (ni : NodeIndex) :
    Except MerkleError (List Word) × σS :=
  match sOps.get s root with
  | (none, s') => (.error (.rootNotInStore root), s')
  | (some _, s') => storeGetPathAux sOps s' root (idxBits ni.depth ni.value)

/-- Modelled from the spec: the walk of `MerkleStore::get_leaf_depth` —
descend following the index bits, stopping at the first node with no stored
children (a leaf) and returning its depth; a node that still has children at
the maximal depth is a structural failure. -/
def storeGetLeafDepthAux (s : σS) (node : Word) (curDepth : Nat) :
    List Bool → Except MerkleError Nat × σS
  | [] =>
    match sOps.get s node with
    | (none, s') => (.ok curDepth, s')
    | (some _, s') => (.error (.depthTooBig curDepth), s')
  | b :: bs =>
    match sOps.get s node with
    | (none, s') => (.ok curDepth, s')
    | (some (l, r), s') => storeGetLeafDepthAux s' (if b then r else l) (curDepth + 1) bs

/-- Modelled from the spec: `MerkleStore::get_leaf_depth`. -/
def storeGetLeafDepth (s : σS) (root : Word) (treeDepth index : Nat) :
    Except MerkleError Nat × σS :=
  storeGetLeafDepthAux sOps s root 0 (idxBits treeDepth index)

variable (hsh : Word → Word → Word)

/-- Modelled from the spec: the walk of `MerkleStore::set_node` — replace the
node at the index with the new value, re-hashing and inserting every ancestor
along the way; returns the old sibling path (bottom-up) and the new subtree
root. -/
def storeSetNodeAux (s : σS) (node value : Word) :
    List Bool → Except MerkleError (List Word × Word) × σS
  | [] => (.ok ([], value), s)
  | b :: bs =>
    match sOps.get s node with
    | (none, s') => (.error (.nodeNotInStore node), s')
    | (some (l, r), s') =>
      match storeSetNodeAux s' (if b then r else l) value bs with
      | (.error e, s'') => (.error e, s'')
      | (.ok (path, newChild), s'') =>
        let nl := if b then l else newChild
        let nr := if b then newChild else r
        let parent := hsh nl nr
        (.ok (path ++ [if b then l else r], parent), sOps.insert s'' parent (nl, nr))

/-- Modelled from the spec: `MerkleStore::set_node`, returning the observed
sibling path and the new root. -/
def storeSetNode (s : σS) (root : Word) (ni : NodeIndex) (value : Word) :
    Except MerkleError (List Word × Word) × σS :=
  match sOps.get s root with
  | (none, s') => (.error (.rootNotInStore root), s')
  | (some _, s') => storeSetNodeAux sOps hsh s' root value (idxBits ni.depth ni.value)

/-- Modelled from the spec: `MerkleStore::merge_roots` — both roots must be
known; a new parent node with the two roots as children is inserted. -/
def storeMergeRoots (s : σS) (lhs rhs : Word) : Except MerkleError Word × σS :=
  match sOps.get s lhs with
  | (none, s') => (.error (.rootNotInStore lhs), s')
  | (some _, s1) =>
    match sOps.get s1 rhs with
    | (none, s') => (.error (.rootNotInStore rhs), s')
    | (some _, s2) =>
      let parent := hsh lhs rhs
      (.ok parent, sOps.insert s2 parent (lhs, rhs))

end MerkleStore

-- ADVICE SOURCE AND INPUTS
-- ===========================================================================

/-- `AdviceSource`: a direct value, or a reference into the advice map. -/
inductive AdviceSource where
  | value (v : Felt)
  | map (key : Word) (includeLen : Bool)
  deriving DecidableEq, Repr

/-- Modelled from the spec: the `AdviceInputs` bundle (miden core) — an
initial stack declared top-to-bottom, the advice map pairs, and the Merkle
store's inner nodes. `into_parts` simply yields the three collections. -/
structure AdviceInputs where
  stack : List Felt
  map : List (List Nat × List Felt)
  store : List (Word × StoreNode)
  deriving DecidableEq, Repr

-- BASE ADVICE PROVIDER (`BaseAdviceProvider<M, S>`)
-- ===========================================================================

/-- The base provider state: step counter, advice stack (top at the END of
the list, matching `Vec`), advice map backend, Merkle store backend. -/
structure BaseAdviceProvider (σM σS : Type) where
  step : Nat
  stack : List Felt
  map : σM
  store : σS
  deriving DecidableEq, Repr

section Provider

variable {σM σS : Type}
variable (mOps : KvOps σM (List Nat) (List Felt)) (sOps : KvOps σS Word StoreNode)
variable (hsh : Word → Word → Word)

/-- `impl From<AdviceInputs> for BaseAdviceProvider`: reverse the declared
stack on load, bulk-load map and store, start the step counter at 0. -/
def baseFromInputs (inputs : AdviceInputs) : BaseAdviceProvider σM σS :=
  { step := 0
    stack := inputs.stack.reverse
    map := mOps.ofList inputs.map
    store := sOps.ofList inputs.store }

/-- `pop_stack`: `self.stack.pop().ok_or(AdviceStackReadFailed(self.step))`. -/
def popStack (st : BaseAdviceProvider σM σS) :
    Except ExecutionError Felt × BaseAdviceProvider σM σS :=
  match st.stack.getLast? with
  | none => (.error (.adviceStackReadFailed st.step), st)
  | some v => (.ok v, { st with stack := st.stack.dropLast })

/-- `pop_stack_word`: require 4 elements, read them at indices
`idx+3, idx+2, idx+1, idx` (top first) and truncate to `idx`. -/
def popStackWord (st : BaseAdviceProvider σM σS) :
    Except ExecutionError Word × BaseAdviceProvider σM σS :=
  if st.stack.length < 4 then
    (.error (.adviceStackReadFailed st.step), st)
  else
    let idx := st.stack.length - 4
    let result : Word :=
      (st.stack.getD (idx + 3) 0, st.stack.getD (idx + 2) 0,
       st.stack.getD (idx + 1) 0, st.stack.getD idx 0)
    (.ok result, { st with stack := st.stack.take idx })

/-- `pop_stack_dword`: two sequential `pop_stack_word` calls. -/
def popStackDword (st : BaseAdviceProvider σM σS) :
    Except ExecutionError (Word × Word) × BaseAdviceProvider σM σS :=
  match popStackWord st with
  | (.error e, st') => (.error e, st')
  | (.ok word0, st') =>
    match popStackWord st' with
    | (.error e, st'') => (.error e, st'')
    | (.ok word1, st'') => (.ok (word0, word1), st'')

/-- `push_stack`: push a direct value, or look the key's canonical bytes up
in the advice map (`AdviceKeyNotFound` when absent), extend the stack with
the values reversed and, when `include_len`, push the value count on top. -/
def pushStack (st : BaseAdviceProvider σM σS) (source : AdviceSource) :
    Except ExecutionError Unit × BaseAdviceProvider σM σS :=
  match source with
  | .value v => (.ok (), { st with stack := st.stack ++ [v] })
  | .map key includeLen =>
    match mOps.get st.map (intoBytes key) with
    | (none, m') => (.error (.adviceKeyNotFound key), { st with map := m' })
    | (some values, m') =>
      let stack1 := st.stack ++ values.reverse
      let stack2 := if includeLen then stack1 ++ [feltOfU64 values.length] else stack1
      (.ok (), { st with map := m', stack := stack2 })

/-- `insert_into_map`: unconditional overwrite insert under the key's
canonical bytes; always succeeds. -/
def insertIntoMap (st : BaseAdviceProvider σM σS) (key : Word) (values : List Felt) :
    Except ExecutionError Unit × BaseAdviceProvider σM σS :=
  (.ok (), { st with map := mOps.insert st.map (intoBytes key) values })

/-- `get_tree_node`: validate the `(depth, index)` pair first, then delegate
to the store, wrapping store errors as `MerkleStoreLookupFailed`. -/
def getTreeNode (st : BaseAdviceProvider σM σS) (root : Word) (depth index : Felt) :
    Except ExecutionError Word × BaseAdviceProvider σM σS :=
  match NodeIndex.fromElements depth index with
  | none => (.error (.invalidTreeNodeIndex depth index), st)
  | some ni =>
    match storeGetNode sOps st.store root ni with
    | (.error e, s') => (.error (.merkleStoreLookupFailed e), { st with store := s' })
    | (.ok v, s') => (.ok v, { st with store := s' })

/-- `get_merkle_path`: same validation, delegating to the store's path query. -/
def getMerklePath (st : BaseAdviceProvider σM σS) (root : Word) (depth index : Felt) :
    Except ExecutionError (List Word) × BaseAdviceProvider σM σS :=
  match NodeIndex.fromElements depth index with
  | none => (.error (.invalidTreeNodeIndex depth index), st)
  | some ni =>
    match storeGetPath sOps st.store root ni with
    | (.error e, s') => (.error (.merkleStoreLookupFailed e), { st with store := s' })
    | (.ok p, s') => (.ok p, { st with store := s' })

/-- `get_leaf_depth`: the tree depth must fit a byte (`u8::try_from`),
otherwise `InvalidTreeDepth`; then delegate to the store. -/
def getLeafDepth (st : BaseAdviceProvider σM σS) (root : Word) (treeDepth index : Felt) :
    Except ExecutionError Nat × BaseAdviceProvider σM σS :=
  if treeDepth.asInt < 256 then
    match storeGetLeafDepth sOps st.store root treeDepth.asInt index.asInt with
    | (.error e, s') => (.error (.merkleStoreLookupFailed e), { st with store := s' })
    | (.ok d, s') => (.ok d, { st with store := s' })
  else
    (.error (.invalidTreeDepth treeDepth), st)

/-- `update_merkle_node`: validate the `(depth, index)` pair first, then set
the node in the store, returning the observed path and wrapping store errors
as `MerkleStoreUpdateFailed`. -/
def updateMerkleNode (st : BaseAdviceProvider σM σS) (root : Word) (depth index : Felt)
    (value : Word) : Except ExecutionError (List Word) × BaseAdviceProvider σM σS :=
  match NodeIndex.fromElements depth index with
  | none => (.error (.invalidTreeNodeIndex depth index), st)
  | some ni =>
    match storeSetNode sOps hsh st.store root ni value with
    | (.error e, s') => (.error (.merkleStoreUpdateFailed e), { st with store := s' })
    | (.ok pr, s') => (.ok pr.1, { st with store := s' })

/-- `merge_roots`: delegate to the store, wrapping store errors as
`MerkleStoreMergeFailed`. -/
def mergeRoots (st : BaseAdviceProvider σM σS) (lhs rhs : Word) :
    Except ExecutionError Word × BaseAdviceProvider σM σS :=
  match storeMergeRoots sOps hsh st.store lhs rhs with
  | (.error e, s') => (.error (.merkleStoreMergeFailed e), { st with store := s' })
  | (.ok v, s') => (.ok v, { st with store := s' })

/-- `advance_clock`: `self.step += 1` (overflow out of scope per the spec). -/
def advanceClock (st : BaseAdviceProvider σM σS) : BaseAdviceProvider σM σS :=
  { st with step := st.step + 1 }

end Provider

-- MEMORY ADVICE PROVIDER (`MemAdviceProvider`)
-- ===========================================================================

/-- Plain advice-map backend state (`SimpleAdviceMap = BTreeMap<[u8;32], Vec<Felt>>`). -/
abbrev AdviceMapPlain := List (List Nat × List Felt)

/-- Plain Merkle-store backend state (`SimpleMerkleMap = BTreeMap<RpoDigest, StoreNode>`). -/
abbrev StorePlain := List (Word × StoreNode)

/-- Plain operations of the advice-map backend. -/
def memMapOps : KvOps AdviceMapPlain (List Nat) (List Felt) := plainKv _ _

/-- Plain operations of the Merkle-store backend. -/
def memStoreOps : KvOps StorePlain Word StoreNode := plainKv _ _

/-- `MemAdviceProvider`: the base provider over the plain backends (the Rust
type is a pass-through façade around exactly this state). -/
abbrev MemAdviceProvider := BaseAdviceProvider AdviceMapPlain StorePlain

/-- `impl From<AdviceInputs> for MemAdviceProvider`. -/
def memFromInputs (inputs : AdviceInputs) : MemAdviceProvider :=
  baseFromInputs memMapOps memStoreOps inputs

-- RECORDING ADVICE PROVIDER (`RecAdviceProvider`)
-- ===========================================================================

/-- Recording advice-map backend (`RecordingAdviceMap`). -/
abbrev AdviceMapRec := RecordingMap (List Nat) (List Felt)

/-- Recording Merkle-store backend (`RecordingMerkleMap`). -/
abbrev StoreRec := RecordingMap Word StoreNode

/-- Recording operations of the advice-map backend. -/
def recMapOps : KvOps AdviceMapRec (List Nat) (List Felt) := recordingKv _ _

/-- Recording operations of the Merkle-store backend. -/
def recStoreOps : KvOps StoreRec Word StoreNode := recordingKv _ _

/-- `RecAdviceProvider`: the base provider over the recording backends plus a
copy of the original initial stack. -/
structure RecAdviceProvider where
  provider : BaseAdviceProvider AdviceMapRec StoreRec
  init_stack : List Felt

/-- `impl From<AdviceInputs> for RecAdviceProvider`: keep a copy of the
declared stack, then build the base provider from the bundle. -/
def recFromInputs (inputs : AdviceInputs) : RecAdviceProvider :=
  { provider := baseFromInputs recMapOps recStoreOps inputs
    init_stack := inputs.stack }

/-- `RecAdviceProvider::into_proof`: discard the live stack and the step
counter, extract the accessed subsets of the map and the store, and assemble
the replay bundle around the initial stack. -/
def RecAdviceProvider.intoProof (p : RecAdviceProvider) : AdviceInputs :=
  { stack := p.init_stack
    map := p.provider.map.intoProof
    store := p.provider.store.intoProof }

-- OPERATION SURFACE (spec §6): one step relation covering every provider call
-- ===========================================================================

/-- One call of the `AdviceProvider` operation surface. -/
inductive Op where
  | popStack
  | popStackWord
  | popStackDword
  | pushStack (source : AdviceSource)
  | insertIntoMap (key : Word) (values : List Felt)
  | getTreeNode (root : Word) (depth index : Felt)
  | getMerklePath (root : Word) (depth index : Felt)
  | getLeafDepth (root : Word) (treeDepth index : Felt)
  | updateMerkleNode (root : Word) (depth index : Felt) (value : Word)
  | mergeRoots (lhs rhs : Word)
  | advanceClock
  deriving DecidableEq, Repr

/-- The possible success payloads of the operation surface. -/
inductive OpResult where
  | unit
  | felt (v : Felt)
  | word (w : Word)
  | dword (w : Word × Word)
  | path (p : List Word)
  | leafDepth (d : Nat)
  deriving DecidableEq, Repr

section Run

variable {σM σS : Type}
variable (mOps : KvOps σM (List Nat) (List Felt)) (sOps : KvOps σS Word StoreNode)
variable (hsh : Word → Word → Word)

/-- Run one provider operation, returning its result and the next state. -/
def runOp (op : Op) (st : BaseAdviceProvider σM σS) :
    Except ExecutionError OpResult × BaseAdviceProvider σM σS :=
  match op with
  | .popStack =>
    match popStack st with
    | (.error e, st') => (.error e, st')
    | (.ok v, st') => (.ok (.felt v), st')
  | .popStackWord =>
    match popStackWord st with
    | (.error e, st') => (.error e, st')
    | (.ok w, st') => (.ok (.word w), st')
  | .popStackDword =>
    match popStackDword st with
    | (.error e, st') => (.error e, st')
    | (.ok w, st') => (.ok (.dword w), st')
  | .pushStack source =>
    match pushStack mOps st source with
    | (.error e, st') => (.error e, st')
    | (.ok _, st') => (.ok .unit, st')
  | .insertIntoMap key values =>
    match insertIntoMap mOps st key values with
    | (.error e, st') => (.error e, st')
    | (.ok _, st') => (.ok .unit, st')
  | .getTreeNode root depth index =>
    match getTreeNode sOps st root depth index with
    | (.error e, st') => (.error e, st')
    | (.ok w, st') => (.ok (.word w), st')
  | .getMerklePath root depth index =>
    match getMerklePath sOps st root depth index with
    | (.error e, st') => (.error e, st')
    | (.ok p, st') => (.ok (.path p), st')
  | .getLeafDepth root treeDepth index =>
    match getLeafDepth sOps st root treeDepth index with
    | (.error e, st') => (.error e, st')
    | (.ok d, st') => (.ok (.leafDepth d), st')
  | .updateMerkleNode root depth index value =>
    match updateMerkleNode sOps hsh st root depth index value with
    | (.error e, st') => (.error e, st')
    | (.ok p, st') => (.ok (.path p), st')
  | .mergeRoots lhs rhs =>
    match mergeRoots sOps hsh st lhs rhs with
    | (.error e, st') => (.error e, st')
    | (.ok w, st') => (.ok (.word w), st')
  | .advanceClock => (.ok .unit, advanceClock st)

/-- State evolution of a sequence of operation calls (results ignored). -/
def applyOps (ops : List Op) (st : BaseAdviceProvider σM σS) : BaseAdviceProvider σM σS :=
  ops.foldl (fun s op => (runOp mOps sOps hsh op s).2) st

/-- `n` successive `pop_stack` calls, collecting every result. -/
def popMany : Nat → BaseAdviceProvider σM σS →
    List (Except ExecutionError Felt) × BaseAdviceProvider σM σS
  | 0, st => ([], st)
  | n + 1, st =>
    let (r, st') := popStack st
    let (rs, st'') := popMany n st'
    (r :: rs, st'')

/-- Successive `push_stack(Value v)` calls, one per listed value. -/
def pushMany (vs : List Felt) (st : BaseAdviceProvider σM σS) : BaseAdviceProvider σM σS :=
  vs.foldl (fun s v => (pushStack mOps s (.value v)).2) st

end Run

/-- Run one operation against the recording provider: delegate to the base
provider, leaving the retained initial stack untouched (the pass-through
`impl AdviceProvider for RecAdviceProvider`). -/
def recRunOp (hsh : Word → Word → Word) (op : Op) (p : RecAdviceProvider) :
    Except ExecutionError OpResult × RecAdviceProvider :=
  let (r, st') := runOp recMapOps recStoreOps hsh op p.provider
  (r, { provider := st', init_stack := p.init_stack })

/-- State evolution of a sequence of calls against the recording provider. -/
def recApplyOps (hsh : Word → Word → Word) (ops : List Op) (p : RecAdviceProvider) :
    RecAdviceProvider :=
  ops.foldl (fun q op => (recRunOp hsh op q).2) p

-- HELPER LEMMAS
-- ===========================================================================

theorem getD_append_right {α : Type} (l m : List α) (k : Nat) (dflt : α) :
    (l ++ m).getD (l.length + k) dflt = m.getD k dflt := by
  induction l with
  | nil => simp
  | cons x xs ih =>
    have : xs.length + 1 + k = (xs.length + k) + 1 := by omega
    simp [List.getD, this]
    simpa [List.getD] using ih

theorem alGet_alInsert_self {K V : Type} [DecidableEq K] (m : List (K × V)) (k : K) (v : V) :
    alGet (alInsert m k v) k = some v := by
  simp [alGet, alInsert]

section StackLemmas

variable {σM σS : Type}

/-- Popping `vs.length` times from a stack whose top segment is `vs.reverse`
yields exactly `vs` (first-stored value first) and strips that segment. -/
theorem popMany_append (vs : List Felt) (base : List Felt)
    (st : BaseAdviceProvider σM σS) (hst : st.stack = base ++ vs.reverse) :
    popMany vs.length st = (vs.map .ok, { st with stack := base }) := by
  induction vs generalizing st with
  | nil =>
    simp at hst
    simp [popMany, ← hst]
  | cons v tl ih =>
    have hst' : st.stack = (base ++ tl.reverse) ++ [v] := by
      simp [hst, List.reverse_cons]
    have hpop : popStack st = (.ok v, { st with stack := base ++ tl.reverse }) := by
      simp [popStack, hst', List.getLast?_concat, List.dropLast_concat]
    have ihst : popMany tl.length { st with stack := base ++ tl.reverse }
        = (tl.map .ok, { st with stack := base }) := ih _ rfl
    simp [popMany, hpop, ihst]

/-- Pushing values one by one appends them to the stack in order and touches
nothing else. -/
theorem pushMany_stack (mOps : KvOps σM (List Nat) (List Felt)) (vs : List Felt)
    (st : BaseAdviceProvider σM σS) :
    pushMany mOps vs st = { st with stack := st.stack ++ vs } := by
  induction vs generalizing st with
  | nil => simp [pushMany]
  | cons v tl ih =>
    have step : (pushStack mOps st (.value v)).2 = { st with stack := st.stack ++ [v] } := rfl
    calc pushMany mOps (v :: tl) st
        = pushMany mOps tl { st with stack := st.stack ++ [v] } := by
          simp [pushMany, step]
      _ = { st with stack := (st.stack ++ [v]) ++ tl } := ih _
      _ = { st with stack := st.stack ++ v :: tl } := by simp

end StackLemmas

/-- Every pass-through call on the recording provider leaves the retained
copy of the initial stack untouched. -/
theorem recApplyOps_init_stack (hsh : Word → Word → Word) (ops : List Op)
    (p : RecAdviceProvider) : (recApplyOps hsh ops p).init_stack = p.init_stack := by
  induction ops generalizing p with
  | nil => rfl
  | cons op rest ih =>
    have hstep : (recRunOp hsh op p).2.init_stack = p.init_stack := by
      simp [recRunOp]
    calc (recApplyOps hsh (op :: rest) p).init_stack
        = (recApplyOps hsh rest (recRunOp hsh op p).2).init_stack := rfl
      _ = (recRunOp hsh op p).2.init_stack := ih _
      _ = p.init_stack := hstep

-- CLAIM THEOREMS
-- ===========================================================================

/-- C1 counterexample: on the state whose stack is `[1, 2, 3, 4]` (so the
top four elements were pushed in the order 1, 2, 3, 4 and the deepest of the
four is 1), `pop_stack_word` returns the word `(4, 3, 2, 1)`: its first
component is 4, the TOPMOST element, not the deepest element 1 — refuting the
claim that the first component is the deepest of the four. -/
theorem c1_counterexample :
    (popStackWord { step := 0, stack := [1, 2, 3, 4], map := [], store := [] :
        MemAdviceProvider }).1 = .ok (4, 3, 2, 1) ∧ (4 : Felt) ≠ (1 : Felt) := by
  exact ⟨rfl, by decide⟩

/-- C1 (amended): for every state whose stack holds at least 4 elements,
`pop_stack_word` removes exactly the top four and returns the Word whose
first component is the TOPMOST (last-pushed, hence first-removed) of the
four: after pushing a, b, c, d in that order it returns Word(d, c, b, a);
with fewer than 4 elements it fails with `AdviceStackReadFailed(step)` and
leaves the state unchanged. -/
theorem c1_pop_stack_word {σM σS : Type} (st : BaseAdviceProvider σM σS)
    (rest : List Felt) (a b c d : Felt) :
    (st.stack = rest ++ [a, b, c, d] →
      popStackWord st = (.ok (d, c, b, a), { st with stack := rest })) ∧
    (st.stack.length < 4 →
      popStackWord st = (.error (.adviceStackReadFailed st.step), st)) := by
  constructor
  · intro hst
    have hlen : st.stack.length = rest.length + 4 := by simp [hst]
    have hnot : ¬ st.stack.length < 4 := by omega
    have hidx : st.stack.length - 4 = rest.length := by omega
    have h3 : st.stack.getD (rest.length + 3) 0 = d := by
      rw [hst]; simpa [List.getD] using getD_append_right rest [a, b, c, d] 3 0
    have h2 : st.stack.getD (rest.length + 2) 0 = c := by
      rw [hst]; simpa [List.getD] using getD_append_right rest [a, b, c, d] 2 0
    have h1 : st.stack.getD (rest.length + 1) 0 = b := by
      rw [hst]; simpa [List.getD] using getD_append_right rest [a, b, c, d] 1 0
    have h0 : st.stack.getD rest.length 0 = a := by
      rw [hst]
      simpa [List.getD] using getD_append_right rest [a, b, c, d] 0 0
    have htake : st.stack.take rest.length = rest := by
      rw [hst]; exact List.take_left rest [a, b, c, d]
    simp only [popStackWord, if_neg hnot, hidx]
    simp only [List.getD_eq_getElem?_getD] at h3 h2 h1 h0
    simp [htake, h3, h2, h1, h0]
  · intro hlt
    simp [popStackWord, if_pos hlt]

/-- C1 witness: the amended theorem evaluated at a concrete 4-element stack
and at a concrete 1-element stack. -/
theorem c1_pop_stack_word_witness :
    popStackWord { step := 0, stack := [10, 20, 30, 40], map := [], store := [] :
        MemAdviceProvider }
      = (.ok (40, 30, 20, 10), { step := 0, stack := [], map := [], store := [] }) ∧
    popStackWord { step := 5, stack := [7], map := [], store := [] : MemAdviceProvider }
      = (.error (.adviceStackReadFailed 5),
         { step := 5, stack := [7], map := [], store := [] }) := by
  constructor
  · exact (c1_pop_stack_word _ [] 10 20 30 40).1 rfl
  · exact (c1_pop_stack_word _ [] 0 0 0 0).2 (by decide)

/-- C7: `pop_stack` fails with `AdviceStackReadFailed(step)` exactly when the
stack is empty (leaving the state unchanged), otherwise removes and returns
the top element; and after pushing any sequence of values the same number of
pops returns them in reverse order (LIFO law), restoring the state. -/
theorem c7_pop_stack_lifo {σM σS : Type} (mOps : KvOps σM (List Nat) (List Felt))
    (st : BaseAdviceProvider σM σS) (vs : List Felt) :
    ((popStack st).1 = .error (.adviceStackReadFailed st.step) ↔ st.stack = []) ∧
    (st.stack = [] → popStack st = (.error (.adviceStackReadFailed st.step), st)) ∧
    (∀ rest v, st.stack = rest ++ [v] →
      popStack st = (.ok v, { st with stack := rest })) ∧
    popMany vs.length (pushMany mOps vs st) = (vs.reverse.map .ok, st) := by
  refine ⟨?_, ?_, ?_, ?_⟩
  · constructor
    · intro h
      by_contra hne
      have hsome : st.stack.getLast? ≠ none := by
        simp [List.getLast?_eq_none_iff, hne]
      rcases Option.ne_none_iff_exists.mp hsome with ⟨v, hv⟩
      simp [popStack, ← hv] at h
    · intro h
      simp [popStack, h]
  · intro h
    simp [popStack, h]
  · intro rest v hst
    simp [popStack, hst, List.getLast?_concat, List.dropLast_concat]
  · have hpush := pushMany_stack mOps vs st
    have hstack : (pushMany mOps vs st).stack = st.stack ++ vs.reverse.reverse := by
      simp [hpush]
    have := popMany_append vs.reverse st.stack (pushMany mOps vs st) hstack
    simpa [hpush] using this

/-- C7 witness: the theorem evaluated at an empty stack, a singleton stack
and the concrete push-then-pop sequence `[5, 6]`. -/
theorem c7_pop_stack_lifo_witness :
    popStack { step := 3, stack := [], map := [], store := [] : MemAdviceProvider }
      = (.error (.adviceStackReadFailed 3),
         { step := 3, stack := [], map := [], store := [] }) ∧
    popStack { step := 0, stack := [9], map := [], store := [] : MemAdviceProvider }
      = (.ok 9, { step := 0, stack := [], map := [], store := [] }) ∧
    popMany 2 (pushMany memMapOps [5, 6]
        { step := 0, stack := [], map := [], store := [] : MemAdviceProvider })
      = ([.ok 6, .ok 5], { step := 0, stack := [], map := [], store := [] }) := by
  refine ⟨?_, ?_, ?_⟩
  · exact (c7_pop_stack_lifo memMapOps _ []).2.1 rfl
  · exact (c7_pop_stack_lifo memMapOps _ []).2.2.1 [] 9 rfl
  · exact (c7_pop_stack_lifo memMapOps
      { step := 0, stack := [], map := [], store := [] } [5, 6]).2.2.2

/-- C9: `pop_stack_dword` is not atomic on failure — with at least 4 but
fewer than 8 elements it fails with `AdviceStackReadFailed(step)` yet the top
four elements are already gone (the stack is truncated to its bottom
`len - 4` elements) — whereas a failing `pop_stack` (empty stack) or a
failing `pop_stack_word` (fewer than 4 elements) leaves the state unchanged. -/
theorem c9_pop_dword_nonatomic {σM σS : Type} (st : BaseAdviceProvider σM σS) :
    (4 ≤ st.stack.length → st.stack.length < 8 →
      popStackDword st = (.error (.adviceStackReadFailed st.step),
        { st with stack := st.stack.take (st.stack.length - 4) })) ∧
    (st.stack = [] → popStack st = (.error (.adviceStackReadFailed st.step), st)) ∧
    (st.stack.length < 4 →
      popStackWord st = (.error (.adviceStackReadFailed st.step), st)) := by
  refine ⟨?_, ?_, ?_⟩
  · intro h4 h8
    have hnot : ¬ st.stack.length < 4 := by omega
    have hfst : popStackWord st
        = (.ok (st.stack.getD (st.stack.length - 4 + 3) 0,
                st.stack.getD (st.stack.length - 4 + 2) 0,
                st.stack.getD (st.stack.length - 4 + 1) 0,
                st.stack.getD (st.stack.length - 4) 0),
           { st with stack := st.stack.take (st.stack.length - 4) }) := by
      simp [popStackWord, if_neg hnot]
    have hlen2 : (st.stack.take (st.stack.length - 4)).length < 4 := by
      have hle := List.length_take_le (st.stack.length - 4) st.stack
      omega
    have hsnd : popStackWord { st with stack := st.stack.take (st.stack.length - 4) }
        = (.error (.adviceStackReadFailed st.step),
           { st with stack := st.stack.take (st.stack.length - 4) }) := by
      simp only [popStackWord]
      simp only [List.length_take]
      rw [if_pos (by omega)]
    simp [popStackDword, hfst, hsnd]
  · intro h
    simp [popStack, h]
  · intro hlt
    simp [popStackWord, if_pos hlt]

/-- C9 witness: a concrete 5-element stack loses its top four elements on the
failing `pop_stack_dword`; the failing single pops leave concrete states
unchanged. -/
theorem c9_pop_dword_nonatomic_witness :
    popStackDword { step := 2, stack := [1, 2, 3, 4, 5], map := [], store := [] :
        MemAdviceProvider }
      = (.error (.adviceStackReadFailed 2),
         { step := 2, stack := [1], map := [], store := [] }) ∧
    popStack { step := 1, stack := [], map := [], store := [] : MemAdviceProvider }
      = (.error (.adviceStackReadFailed 1),
         { step := 1, stack := [], map := [], store := [] }) ∧
    popStackWord { step := 4, stack := [8, 9], map := [], store := [] :
        MemAdviceProvider }
      = (.error (.adviceStackReadFailed 4),
         { step := 4, stack := [8, 9], map := [], store := [] }) := by
  refine ⟨?_, ?_, ?_⟩
  · exact (c9_pop_dword_nonatomic _).1 (by decide) (by decide)
  · exact (c9_pop_dword_nonatomic
      { step := 1, stack := [], map := [], store := [] }).2.1 rfl
  · exact (c9_pop_dword_nonatomic _).2.2 (by decide)

/-- C2: on the memory provider, `push_stack` with a Map source fails with
`AdviceKeyNotFound(key)` exactly when the canonical byte encoding of the key
is absent from the advice map (the state, in particular the stack, is then
unchanged); when the key maps to values `vs` it pushes them in reverse order
(so `v0` is on top of the values) and, when `include_len`, pushes exactly one
additional element equal to the value count above all of them. -/
theorem c2_push_stack_map (st : MemAdviceProvider) (key : Word) (includeLen : Bool) :
    ((pushStack memMapOps st (.map key includeLen)).1
        = .error (.adviceKeyNotFound key) ↔ alGet st.map (intoBytes key) = none) ∧
    (alGet st.map (intoBytes key) = none →
      pushStack memMapOps st (.map key includeLen)
        = (.error (.adviceKeyNotFound key), st)) ∧
    (∀ vs, alGet st.map (intoBytes key) = some vs →
      pushStack memMapOps st (.map key includeLen)
        = (.ok (), { st with stack := st.stack ++ vs.reverse
             ++ (if includeLen then [feltOfU64 vs.length] else []) })) ∧
    (∀ v tl, alGet st.map (intoBytes key) = some (v :: tl) → includeLen = false →
      (pushStack memMapOps st (.map key includeLen)).2.stack.getLast? = some v) ∧
    (∀ vs, alGet st.map (intoBytes key) = some vs → includeLen = true →
      (pushStack memMapOps st (.map key includeLen)).2.stack.getLast?
        = some (feltOfU64 vs.length)) := by
  refine ⟨?_, ?_, ?_, ?_, ?_⟩
  · constructor
    · intro h
      by_contra hne
      rcases Option.ne_none_iff_exists.mp hne with ⟨vs, hvs⟩
      simp [pushStack, memMapOps, plainKv, ← hvs] at h
    · intro h
      simp [pushStack, memMapOps, plainKv, h]
  · intro h
    simp [pushStack, memMapOps, plainKv, h]
  · intro vs h
    cases includeLen <;> simp [pushStack, memMapOps, plainKv, h]
  · intro v tl h hlen
    subst hlen
    simp [pushStack, memMapOps, plainKv, h, List.reverse_cons,
      ← List.append_assoc, List.getLast?_concat]
  · intro vs h hlen
    subst hlen
    simp [pushStack, memMapOps, plainKv, h, List.getLast?_concat]

/-- C2 witness: the theorem evaluated on a concrete map holding one key with
values `[1, 2, 3]`, for a present key (both `include_len` settings) and for
an absent key. -/
theorem c2_push_stack_map_witness :
    pushStack memMapOps
        { step := 0, stack := [9], map := alInsert [] (intoBytes (7, 7, 7, 7)) [1, 2, 3],
          store := [] : MemAdviceProvider } (.map (7, 7, 7, 7) false)
      = (.ok (), { step := 0, stack := [9, 3, 2, 1],
                   map := alInsert [] (intoBytes (7, 7, 7, 7)) [1, 2, 3], store := [] }) ∧
    pushStack memMapOps
        { step := 0, stack := [9], map := alInsert [] (intoBytes (7, 7, 7, 7)) [1, 2, 3],
          store := [] : MemAdviceProvider } (.map (7, 7, 7, 7) true)
      = (.ok (), { step := 0, stack := [9, 3, 2, 1, feltOfU64 3],
                   map := alInsert [] (intoBytes (7, 7, 7, 7)) [1, 2, 3], store := [] }) ∧
    pushStack memMapOps
        { step := 0, stack := [9], map := [], store := [] : MemAdviceProvider }
        (.map (7, 7, 7, 7) true)
      = (.error (.adviceKeyNotFound (7, 7, 7, 7)),
         { step := 0, stack := [9], map := [], store := [] }) := by
  refine ⟨?_, ?_, ?_⟩
  · have h := (c2_push_stack_map
      { step := 0, stack := [9], map := alInsert [] (intoBytes (7, 7, 7, 7)) [1, 2, 3],
        store := [] } (7, 7, 7, 7) false).2.2.1 [1, 2, 3]
      (alGet_alInsert_self [] (intoBytes (7, 7, 7, 7)) [1, 2, 3])
    simpa using h
  · have h := (c2_push_stack_map
      { step := 0, stack := [9], map := alInsert [] (intoBytes (7, 7, 7, 7)) [1, 2, 3],
        store := [] } (7, 7, 7, 7) true).2.2.1 [1, 2, 3]
      (alGet_alInsert_self [] (intoBytes (7, 7, 7, 7)) [1, 2, 3])
    simpa using h
  · exact (c2_push_stack_map
      { step := 0, stack := [9], map := [], store := [] } (7, 7, 7, 7) true).2.1 rfl

/-- C3: map round-trip — after `insert_into_map(k, vs)` and
`push_stack(Map{key: k, include_len: false})`, `|vs|` successive pops return
exactly `vs` in original order; with `include_len: true` the popped sequence
is the length first, then `vs` in order (for `vs = [1, 2, 3, 4]`: 4, then
1, 2, 3, 4). -/
theorem c3_map_roundtrip (st : MemAdviceProvider) (k : Word) (vs : List Felt) :
    (popMany vs.length
        (pushStack memMapOps (insertIntoMap memMapOps st k vs).2 (.map k false)).2).1
      = vs.map .ok ∧
    (popMany (vs.length + 1)
        (pushStack memMapOps (insertIntoMap memMapOps st k vs).2 (.map k true)).2).1
      = .ok (feltOfU64 vs.length) :: vs.map .ok := by
  have halg := alGet_alInsert_self st.map (intoBytes k) vs
  constructor
  · have hpush : (pushStack memMapOps (insertIntoMap memMapOps st k vs).2
        (.map k false)).2
        = { step := st.step, stack := st.stack ++ vs.reverse,
            map := alInsert st.map (intoBytes k) vs, store := st.store } := by
      simp [pushStack, insertIntoMap, memMapOps, plainKv, halg]
    rw [hpush]
    have h2 := popMany_append vs st.stack
      { step := st.step, stack := st.stack ++ vs.reverse,
        map := alInsert st.map (intoBytes k) vs, store := st.store } rfl
    rw [h2]
  · have hpush : (pushStack memMapOps (insertIntoMap memMapOps st k vs).2
        (.map k true)).2
        = { step := st.step, stack := st.stack ++ (feltOfU64 vs.length :: vs).reverse,
            map := alInsert st.map (intoBytes k) vs, store := st.store } := by
      simp [pushStack, insertIntoMap, memMapOps, plainKv, halg, List.reverse_cons,
        List.append_assoc]
    rw [hpush]
    have h2 := popMany_append (feltOfU64 vs.length :: vs) st.stack
      { step := st.step, stack := st.stack ++ (feltOfU64 vs.length :: vs).reverse,
        map := alInsert st.map (intoBytes k) vs, store := st.store } rfl
    simp only [List.length_cons] at h2
    rw [h2]
    simp

/-- C4: constructing a provider from an inputs bundle reverses the declared
stack on load (the first pop returns the first declared element, and popping
everything returns the declared stack in order), bulk-loads the map and the
store from the bundle's collections, and starts the step counter at 0. -/
theorem c4_from_inputs (inputs : AdviceInputs) :
    (memFromInputs inputs).step = 0 ∧
    (memFromInputs inputs).stack = inputs.stack.reverse ∧
    (memFromInputs inputs).map = alOfList inputs.map ∧
    (memFromInputs inputs).store = alOfList inputs.store ∧
    (popMany inputs.stack.length (memFromInputs inputs)).1 = inputs.stack.map .ok := by
  refine ⟨rfl, rfl, rfl, rfl, ?_⟩
  have h := popMany_append inputs.stack [] (memFromInputs inputs) (by simp [memFromInputs, baseFromInputs])
  rw [h]

/-- C5: for every operation sequence applied to a recording provider built
from an inputs bundle, `into_proof` returns a bundle whose stack is the
original initial stack exactly as supplied at construction (not the live,
mutated stack), whose map is the accessed subset from the recording map's
`into_proof`, and whose store is the accessed subset from the recording
store backend's `into_proof`; the live stack and step counter are discarded
(changing them does not change the extracted bundle). -/
theorem c5_into_proof (hsh : Word → Word → Word) (ops : List Op) (inputs : AdviceInputs) :
    (recApplyOps hsh ops (recFromInputs inputs)).intoProof.stack = inputs.stack ∧
    (recApplyOps hsh ops (recFromInputs inputs)).intoProof.map
      = (recApplyOps hsh ops (recFromInputs inputs)).provider.map.intoProof ∧
    (recApplyOps hsh ops (recFromInputs inputs)).intoProof.store
      = (recApplyOps hsh ops (recFromInputs inputs)).provider.store.intoProof ∧
    (∀ stk stp, RecAdviceProvider.intoProof
        ⟨{ (recApplyOps hsh ops (recFromInputs inputs)).provider with
             stack := stk, step := stp },
          (recApplyOps hsh ops (recFromInputs inputs)).init_stack⟩
      = (recApplyOps hsh ops (recFromInputs inputs)).intoProof) := by
  refine ⟨?_, rfl, rfl, fun stk stp => rfl⟩
  show (recApplyOps hsh ops (recFromInputs inputs)).init_stack = inputs.stack
  rw [recApplyOps_init_stack hsh ops (recFromInputs inputs)]
  rfl

/-- C6: every Merkle operation taking a `(depth, index)` pair of `Felt`
(`get_tree_node`, `get_merkle_path`, `update_merkle_node`) fails with
`InvalidTreeNodeIndex{depth, value}` when the pair does not convert to a
valid `NodeIndex`, returning the state unchanged (so before any store
access); `get_leaf_depth` fails with `InvalidTreeDepth{depth}` when the tree
depth does not fit a byte, also with the state unchanged. -/
theorem c6_index_validation {σM σS : Type} (sOps : KvOps σS Word StoreNode)
    (hsh : Word → Word → Word) (st : BaseAdviceProvider σM σS)
    (root : Word) (depth index : Felt) (value : Word) :
    (NodeIndex.fromElements depth index = none →
      getTreeNode sOps st root depth index
        = (.error (.invalidTreeNodeIndex depth index), st) ∧
      getMerklePath sOps st root depth index
        = (.error (.invalidTreeNodeIndex depth index), st) ∧
      updateMerkleNode sOps hsh st root depth index value
        = (.error (.invalidTreeNodeIndex depth index), st)) ∧
    (256 ≤ depth.asInt →
      getLeafDepth sOps st root depth index
        = (.error (.invalidTreeDepth depth), st)) := by
  constructor
  · intro h
    refine ⟨?_, ?_, ?_⟩ <;> simp [getTreeNode, getMerklePath, updateMerkleNode, h]
  · intro h
    have hnot : ¬ depth.asInt < 256 := by omega
    simp [getLeafDepth, hnot]

/-- C6 witness: the theorem evaluated at the malformed pair
`(depth, index) = (256, 0)` on a concrete provider. -/
theorem c6_index_validation_witness :
    NodeIndex.fromElements (256 : Felt) 0 = none ∧
    getTreeNode memStoreOps
        { step := 0, stack := [], map := [], store := [] : MemAdviceProvider }
        (0, 0, 0, 0) 256 0
      = (.error (.invalidTreeNodeIndex 256 0),
         { step := 0, stack := [], map := [], store := [] }) ∧
    getMerklePath memStoreOps
        { step := 0, stack := [], map := [], store := [] : MemAdviceProvider }
        (0, 0, 0, 0) 256 0
      = (.error (.invalidTreeNodeIndex 256 0),
         { step := 0, stack := [], map := [], store := [] }) ∧
    updateMerkleNode memStoreOps (fun a _ => a)
        { step := 0, stack := [], map := [], store := [] : MemAdviceProvider }
        (0, 0, 0, 0) 256 0 (0, 0, 0, 0)
      = (.error (.invalidTreeNodeIndex 256 0),
         { step := 0, stack := [], map := [], store := [] }) ∧
    getLeafDepth memStoreOps
        { step := 0, stack := [], map := [], store := [] : MemAdviceProvider }
        (0, 0, 0, 0) 256 0
      = (.error (.invalidTreeDepth 256),
         { step := 0, stack := [], map := [], store := [] }) := by
  have h := c6_index_validation memStoreOps (fun a _ => a)
    ({ step := 0, stack := [], map := [], store := [] } : MemAdviceProvider)
    (0, 0, 0, 0) 256 0 (0, 0, 0, 0)
  exact ⟨by decide, (h.1 (by decide)).1, (h.1 (by decide)).2.1, (h.1 (by decide)).2.2,
    h.2 (by decide)⟩

/-- `pop_stack` never changes the map, the store or the step counter. -/
theorem popStack_frame {σM σS : Type} (st : BaseAdviceProvider σM σS) :
    (popStack st).2.map = st.map ∧ (popStack st).2.store = st.store ∧
      (popStack st).2.step = st.step := by
  rcases h : st.stack.getLast? with _ | v <;> simp [popStack, h]

/-- `pop_stack_word` never changes the map, the store or the step counter. -/
theorem popStackWord_frame {σM σS : Type} (st : BaseAdviceProvider σM σS) :
    (popStackWord st).2.map = st.map ∧ (popStackWord st).2.store = st.store ∧
      (popStackWord st).2.step = st.step := by
  by_cases h : st.stack.length < 4 <;> simp [popStackWord, h]

/-- `pop_stack_dword` never changes the map, the store or the step counter. -/
theorem popStackDword_frame {σM σS : Type} (st : BaseAdviceProvider σM σS) :
    (popStackDword st).2.map = st.map ∧ (popStackDword st).2.store = st.store ∧
      (popStackDword st).2.step = st.step := by
  have h1 := popStackWord_frame st
  rcases hw : popStackWord st with ⟨r, st'⟩
  rw [hw] at h1
  cases r with
  | error e => simpa [popStackDword, hw] using h1
  | ok w =>
    have h2 := popStackWord_frame st'
    rcases hw2 : popStackWord st' with ⟨r2, st''⟩
    rw [hw2] at h2
    cases r2 with
    | error e =>
      simp [popStackDword, hw, hw2]
      exact ⟨h2.1.trans h1.1, h2.2.1.trans h1.2.1, h2.2.2.trans h1.2.2⟩
    | ok w2 =>
      simp [popStackDword, hw, hw2]
      exact ⟨h2.1.trans h1.1, h2.2.1.trans h1.2.1, h2.2.2.trans h1.2.2⟩

/-- C10: on the memory provider every stack operation leaves the advice map,
the Merkle store and the step counter unchanged (success or failure);
`insert_into_map` leaves the stack, the store and the step counter
unchanged; `advance_clock` increments the step counter by exactly 1 and
leaves the stack, the map and the store unchanged. -/
theorem c10_frame (st : MemAdviceProvider) (source : AdviceSource)
    (key : Word) (values : List Felt) :
    ((popStack st).2.map = st.map ∧ (popStack st).2.store = st.store ∧
      (popStack st).2.step = st.step) ∧
    ((popStackWord st).2.map = st.map ∧ (popStackWord st).2.store = st.store ∧
      (popStackWord st).2.step = st.step) ∧
    ((popStackDword st).2.map = st.map ∧ (popStackDword st).2.store = st.store ∧
      (popStackDword st).2.step = st.step) ∧
    ((pushStack memMapOps st source).2.map = st.map ∧
      (pushStack memMapOps st source).2.store = st.store ∧
      (pushStack memMapOps st source).2.step = st.step) ∧
    ((insertIntoMap memMapOps st key values).2.stack = st.stack ∧
      (insertIntoMap memMapOps st key values).2.store = st.store ∧
      (insertIntoMap memMapOps st key values).2.step = st.step) ∧
    ((advanceClock st).step = st.step + 1 ∧ (advanceClock st).stack = st.stack ∧
      (advanceClock st).map = st.map ∧ (advanceClock st).store = st.store) := by
  refine ⟨popStack_frame st, popStackWord_frame st, popStackDword_frame st, ?_,
    ⟨rfl, rfl, rfl⟩, ⟨rfl, rfl, rfl, rfl⟩⟩
  cases source with
  | value v => exact ⟨rfl, rfl, rfl⟩
  | map k il =>
    rcases h : alGet st.map (intoBytes k) with _ | vs <;>
      simp [pushStack, memMapOps, plainKv, h]

/-- The error constructors each provider operation may produce: the closed
taxonomy of spec §7, broken down per operation. -/
def allowedError : Op → ExecutionError → Prop
  | .popStack, e => ∃ s, e = .adviceStackReadFailed s
  | .popStackWord, e => ∃ s, e = .adviceStackReadFailed s
  | .popStackDword, e => ∃ s, e = .adviceStackReadFailed s
  | .pushStack _, e => ∃ k, e = .adviceKeyNotFound k
  | .insertIntoMap _ _, _ => False
  | .getTreeNode _ _ _, e =>
    (∃ d i, e = .invalidTreeNodeIndex d i) ∨ ∃ me, e = .merkleStoreLookupFailed me
  | .getMerklePath _ _ _, e =>
    (∃ d i, e = .invalidTreeNodeIndex d i) ∨ ∃ me, e = .merkleStoreLookupFailed me
  | .getLeafDepth _ _ _, e =>
    (∃ d, e = .invalidTreeDepth d) ∨ ∃ me, e = .merkleStoreLookupFailed me
  | .updateMerkleNode _ _ _ _, e =>
    (∃ d i, e = .invalidTreeNodeIndex d i) ∨ ∃ me, e = .merkleStoreUpdateFailed me
  | .mergeRoots _ _, e => ∃ me, e = .merkleStoreMergeFailed me
  | .advanceClock, _ => False

/-- C8: every provider operation is total — on any state it returns either a
success value or an error drawn from the closed taxonomy appropriate to that
operation (the shallow embedding itself witnesses absence of panics: every
operation is a total function into `Except`); in particular
`insert_into_map` always succeeds and overwrites any prior value for the
same key. -/
theorem c8_totality (hsh : Word → Word → Word) (op : Op) (st : MemAdviceProvider)
    (key : Word) (values : List Felt) :
    (∀ e, (runOp memMapOps memStoreOps hsh op st).1 = .error e → allowedError op e) ∧
    (runOp memMapOps memStoreOps hsh (.insertIntoMap key values) st).1 = .ok .unit ∧
    alGet ((runOp memMapOps memStoreOps hsh (.insertIntoMap key values) st).2).map
        (intoBytes key) = some values := by
  refine ⟨?_, rfl, ?_⟩
  · intro e h
    cases op with
    | popStack =>
      rcases hg : st.stack.getLast? with _ | v <;>
        simp [runOp, popStack, hg] at h
      exact ⟨st.step, h.symm⟩
    | popStackWord =>
      by_cases hl : st.stack.length < 4 <;> simp [runOp, popStackWord, hl] at h
      exact ⟨st.step, h.symm⟩
    | popStackDword =>
      rcases hw : popStackWord st with ⟨r, st'⟩
      cases r with
      | error e1 =>
        have hshape : e1 = .adviceStackReadFailed st.step := by
          by_cases hl : st.stack.length < 4 <;> simp [popStackWord, hl] at hw
          exact hw.1.symm
        simp [runOp, popStackDword, hw] at h
        exact ⟨st.step, by rw [← h, hshape]⟩
      | ok w =>
        rcases hw2 : popStackWord st' with ⟨r2, st''⟩
        cases r2 with
        | error e2 =>
          have hshape : e2 = .adviceStackReadFailed st'.step := by
            by_cases hl : st'.stack.length < 4 <;> simp [popStackWord, hl] at hw2
            exact hw2.1.symm
          simp [runOp, popStackDword, hw, hw2] at h
          exact ⟨st'.step, by rw [← h, hshape]⟩
        | ok w2 => simp [runOp, popStackDword, hw, hw2] at h
    | pushStack source =>
      cases source with
      | value v => simp [runOp, pushStack] at h
      | map k il =>
        rcases hg : alGet st.map (intoBytes k) with _ | vs <;>
          simp [runOp, pushStack, memMapOps, plainKv, hg] at h
        exact ⟨k, h.symm⟩
    | insertIntoMap k vs => simp [runOp, insertIntoMap] at h
    | getTreeNode root depth index =>
      rcases hni : NodeIndex.fromElements depth index with _ | ni
      · simp [runOp, getTreeNode, hni] at h
        exact Or.inl ⟨depth, index, h.symm⟩
      · rcases hs : storeGetNode memStoreOps st.store root ni with ⟨r, s'⟩
        cases r with
        | error me =>
          simp [runOp, getTreeNode, hni, hs] at h
          exact Or.inr ⟨me, h.symm⟩
        | ok w => simp [runOp, getTreeNode, hni, hs] at h
    | getMerklePath root depth index =>
      rcases hni : NodeIndex.fromElements depth index with _ | ni
      · simp [runOp, getMerklePath, hni] at h
        exact Or.inl ⟨depth, index, h.symm⟩
      · rcases hs : storeGetPath memStoreOps st.store root ni with ⟨r, s'⟩
        cases r with
        | error me =>
          simp [runOp, getMerklePath, hni, hs] at h
          exact Or.inr ⟨me, h.symm⟩
        | ok p => simp [runOp, getMerklePath, hni, hs] at h
    | getLeafDepth root treeDepth index =>
      by_cases hd : treeDepth.asInt < 256
      · rcases hs : storeGetLeafDepth memStoreOps st.store root treeDepth.asInt index.asInt
          with ⟨r, s'⟩
        cases r with
        | error me =>
          simp [runOp, getLeafDepth, hd, hs] at h
          exact Or.inr ⟨me, h.symm⟩
        | ok d => simp [runOp, getLeafDepth, hd, hs] at h
      · simp [runOp, getLeafDepth, hd] at h
        exact Or.inl ⟨treeDepth, h.symm⟩
    | updateMerkleNode root depth index value =>
      rcases hni : NodeIndex.fromElements depth index with _ | ni
      · simp [runOp, updateMerkleNode, hni] at h
        exact Or.inl ⟨depth, index, h.symm⟩
      · rcases hs : storeSetNode memStoreOps hsh st.store root ni value with ⟨r, s'⟩
        cases r with
        | error me =>
          simp [runOp, updateMerkleNode, hni, hs] at h
          exact Or.inr ⟨me, h.symm⟩
        | ok pr => simp [runOp, updateMerkleNode, hni, hs] at h
    | mergeRoots lhs rhs =>
      rcases hs : storeMergeRoots memStoreOps hsh st.store lhs rhs with ⟨r, s'⟩
      cases r with
      | error me =>
        simp [runOp, mergeRoots, hs] at h
        exact ⟨me, h.symm⟩
      | ok w => simp [runOp, mergeRoots, hs] at h
    | advanceClock => simp [runOp] at h
  · simp [runOp, insertIntoMap, memMapOps, plainKv, alGet_alInsert_self]

/-- C8 witness: the theorem evaluated at a concrete failing pop (its error is
in the allowed taxonomy) and a concrete map insert (which succeeds and
overwrites the prior binding of the same key). -/
theorem c8_totality_witness :
    allowedError .popStack (.adviceStackReadFailed 0) ∧
    (runOp memMapOps memStoreOps (fun a _ => a)
        (.insertIntoMap (7, 7, 7, 7) [5, 6])
        { step := 0, stack := [], map := alInsert [] (intoBytes (7, 7, 7, 7)) [1],
          store := [] : MemAdviceProvider }).1 = .ok .unit ∧
    alGet ((runOp memMapOps memStoreOps (fun a _ => a)
        (.insertIntoMap (7, 7, 7, 7) [5, 6])
        { step := 0, stack := [], map := alInsert [] (intoBytes (7, 7, 7, 7)) [1],
          store := [] : MemAdviceProvider }).2).map (intoBytes (7, 7, 7, 7))
      = some [5, 6] := by
  have h := c8_totality (fun a _ => a) .popStack
    ({ step := 0, stack := [], map := alInsert [] (intoBytes (7, 7, 7, 7)) [1],
       store := [] } : MemAdviceProvider) (7, 7, 7, 7) [5, 6]
  exact ⟨h.1 (.adviceStackReadFailed 0) rfl, h.2.1, h.2.2⟩

end Miden
